import Mathlib

/-- A node of the materialized encoding tree (`ArrayRef` in the source): an encoding
identifier, a byte size, the encoding-specific payloads exposed by downcasts
(`DictArray` gives values/codes lengths, `RunEndArray` gives a run count), and the
ordered children returned by `array.children()`. -/
inductive EncTree where
  | node (encoding_id : String) (nbytes : Nat)
      (dict_info : Option (Nat × Nat)) (runend_info : Option Nat)
      (children : List EncTree)

def EncTree.encoding_id : EncTree → String
  | .node i _ _ _ _ => i

def EncTree.nbytes : EncTree → Nat
  | .node _ n _ _ _ => n

def EncTree.dict_info : EncTree → Option (Nat × Nat)
  | .node _ _ d _ _ => d

def EncTree.runend_info : EncTree → Option Nat
  | .node _ _ _ r _ => r

/-- Models `get_array_children` / `array.children()`. -/
def get_array_children : EncTree → List EncTree
  | .node _ _ _ _ cs => cs

mutual
/-- Function `contains_encoding` from `src/main.rs`: the node itself carries the target
encoding id, or some child subtree contains it. -/
def contains_encoding : EncTree → String → Bool
  | .node i _ _ _ cs, target_encoding =>
    (i == target_encoding) || containsAny cs target_encoding

/-- The `for child in array.children()` loop of `contains_encoding`. -/
def containsAny : List EncTree → String → Bool
  | [], _ => false
  | c :: rest, target_encoding =>
    contains_encoding c target_encoding || containsAny rest target_encoding
end

mutual
/-- Pre-order listing of all nodes of a tree (the node itself and all descendants). -/
def allNodes : EncTree → List EncTree
  | .node i n d r cs => .node i n d r cs :: allNodesList cs

def allNodesList : List EncTree → List EncTree
  | [] => []
  | c :: rest => allNodes c ++ allNodesList rest
end

mutual
/-- Function `extract_column_encodings_from_tree` from the source: if the node downcasts to
`StructArray` (equivalently, its encoding id is `vortex.struct`) return its fields
(= its children); otherwise search the children in order and return the first
non-empty recursive result, or the empty list if none. -/
def extract_column_encodings_from_tree : EncTree → List EncTree
  | .node i _ _ _ cs =>
    if i = "vortex.struct" then cs else extractFromChildren cs

/-- The `for child in array.children()` loop of `extract_column_encodings_from_tree`:
return the first non-empty recursive result. -/
def extractFromChildren : List EncTree → List EncTree
  | [] => []
  | c :: rest =>
    let result := extract_column_encodings_from_tree c
    if result.isEmpty then extractFromChildren rest else result
end

/-- Function `find_columns_with_encoding` from the source. `column_names` models the
`FieldNames` list. If the whole tree contains the target encoding, every column
name is pushed; otherwise the children of the first struct found are paired
positionally with the names (`zip` stops at the shorter sequence) and a name is
pushed when its paired subtree contains the target. -/
def find_columns_with_encoding (array : EncTree) (target_encoding : String)
    (column_names : List String) : List String :=
  if contains_encoding array target_encoding then
    -- report all columns: pushing every name in order yields the name list itself
    column_names
  else
    let column_encodings := extract_column_encodings_from_tree array
    if column_encodings.isEmpty then []
    else
      (column_names.zip column_encodings).foldl
        (fun result p =>
          if contains_encoding p.2 target_encoding then result ++ [p.1] else result)
        []

/-- The id-collection loop of `read_footer_encodings`: push each spec id, skipping
empty ids and ids already collected (`Vec::contains`). Used identically for the
array specs and the layout specs. -/
def collect_encoding_ids (ids : List String) : List String :=
  ids.foldl
    (fun encodings encoding_id =>
      if encoding_id ≠ "" ∧ encoding_id ∉ encodings then encodings ++ [encoding_id]
      else encodings)
    []

/-- Modelled from the spec's words (§4.1 step 9, for comparison with
`collect_encoding_ids`): keep the distinct non-empty ids in first-seen order —
skip empty ids, keep the first occurrence of each id and drop its later
duplicates. -/
def firstSeenDedup : List String → List String
  | [] => []
  | i :: rest =>
    if i = "" then firstSeenDedup rest
    else i :: (firstSeenDedup rest).filter (fun j => j != i)

/-- Function `get_encoding_description` from the source: a fixed table keyed by encoding id;
the dictionary and run-end cases read the downcast payloads when present. -/
def get_encoding_description (encoding_id : String) (array : EncTree) : String :=
  match encoding_id with
  | "vortex.zstd" => " [Zstd]"
  | "vortex.dict" =>
    match array.dict_info with
    | some (nvalues, ncodes) =>
      " [Dict: " ++ toString nvalues ++ " values, " ++ toString ncodes ++ " codes]"
    | none => " [Dict]"
  | "vortex.runend" =>
    match array.runend_info with
    | some nruns => " [RLE: " ++ toString nruns ++ " runs]"
    | none => " [RLE]"
  | "vortex.sparse" => " [Sparse]"
  | "vortex.alp" => " [ALP float compression]"
  | "vortex.alprd" => " [ALP-RD]"
  | "vortex.pco" => " [PCO quantile compression]"
  | "vortex.for" => " [Frame-of-Reference]"
  | "fastlanes.bitpacked" => " [Bit-packed]"
  | "vortex.delta" => " [Delta]"
  | "vortex.fsst" => " [FSST string compression]"
  | "vortex.sequence" => " [Sequence]"
  | "vortex.constant" => " [Constant]"
  | _ => ""

/-- The indentation string `"  ".repeat(depth)`. -/
def indentOf (depth : Nat) : String := String.join (List.replicate depth "  ")

/-- The header line printed for every node by both tree analyzers. -/
def encoding_line (array : EncTree) (depth : Nat) : String :=
  indentOf depth ++ "└─ " ++ array.encoding_id ++ " (" ++ toString array.nbytes
    ++ " bytes)" ++ get_encoding_description array.encoding_id array

mutual
/-- Function `analyze_encoding_tree` from the source, with each `println!` collected as one
line: print the node's header line, then recurse into all children at depth+1. -/
def analyze_encoding_tree : EncTree → Nat → List String
  | .node i n d r cs, depth =>
    encoding_line (.node i n d r cs) depth :: analyzeChildren cs (depth + 1)

/-- The children loop of `analyze_encoding_tree`. -/
def analyzeChildren : List EncTree → Nat → List String
  | [], _ => []
  | c :: rest, depth => analyze_encoding_tree c depth ++ analyzeChildren rest depth
end

/-- The field loop of the expanded-struct branch of
`analyze_encoding_tree_with_names`: one `Column [<name>]:` label line per field
(`└─` for the last index, `├─` otherwise) followed by the field's
`analyze_encoding_tree` rendering at depth+2. -/
def column_lines : List (String × EncTree) → Nat → Nat → Nat → List String
  | [], _, _, _ => []
  | (name, child) :: rest, idx, total, depth =>
    let pfx := if idx = total - 1 then "└─" else "├─"
    (indentOf depth ++ "  " ++ pfx ++ " Column [" ++ name ++ "]:")
      :: (analyze_encoding_tree child (depth + 2)
          ++ column_lines rest (idx + 1) total depth)

mutual
/-- Function `analyze_encoding_tree_with_names` from `src/main.rs` (the variant threading the
`show_first_struct_details` flag): print the header line; a `vortex.struct` node
whose child count equals the name count either expands each field under a
`Column [<name>]:` label (flag set) or prints one `[Same structure: N columns]`
summary line (flag clear) and returns; every other node recurses into its
children with the sibling loop below. -/
def analyze_encoding_tree_with_names : EncTree → Nat → List String → Bool → List String
  | .node i n d r cs, depth, column_names, show_first_struct_details =>
    let header := encoding_line (.node i n d r cs) depth
    if i = "vortex.struct" ∧ cs.length = column_names.length then
      if show_first_struct_details then
        header :: column_lines (column_names.zip cs) 0 column_names.length depth
      else
        [header,
         indentOf depth ++ "  [Same structure: " ++ toString cs.length ++ " columns]"]
    else
      header :: analyzeNamedChildren cs (depth + 1) column_names
        (!show_first_struct_details)

/-- The fall-through children loop of `analyze_encoding_tree_with_names`:
`shown_first_struct` starts as the negation of the incoming flag; each child is
visited with `show_details = !shown_first_struct`, and a child that is itself a
`vortex.struct` node while details are still enabled sets the flag for the
remaining siblings. -/
def analyzeNamedChildren : List EncTree → Nat → List String → Bool → List String
  | [], _, _, _ => []
  | c :: rest, depth, column_names, shown_first_struct =>
    let show_details := !shown_first_struct
    let shown_after :=
      shown_first_struct || ((c.encoding_id == "vortex.struct") && show_details)
    analyze_encoding_tree_with_names c depth column_names show_details
      ++ analyzeNamedChildren rest depth column_names shown_after
end

mutual
/-- Modelled from the spec's words (§4.2 `render_tree` with `collapse_repeats` and no
details left, for comparison with `analyze_encoding_tree_with_names` once the first
struct has been shown): a `vortex.struct` node with matching child count renders as
its header line plus one `[Same structure: N columns]` summary line; every other
node renders its header line and all children recurse, still collapsed. -/
def collapsed_render : EncTree → Nat → List String → List String
  | .node i n d r cs, depth, column_names =>
    let header := encoding_line (.node i n d r cs) depth
    if i = "vortex.struct" ∧ cs.length = column_names.length then
      [header,
       indentOf depth ++ "  [Same structure: " ++ toString cs.length ++ " columns]"]
    else
      header :: collapsedChildren cs (depth + 1) column_names

/-- Children loop of `collapsed_render`. -/
def collapsedChildren : List EncTree → Nat → List String → List String
  | [], _, _ => []
  | c :: rest, depth, column_names =>
    collapsed_render c depth column_names ++ collapsedChildren rest depth column_names
end

/-- Modelled from the spec's words (§4.2 `find_first_struct_children`, for comparison
with `extract_column_encodings_from_tree`): among the children's recursive results,
return the first non-empty one, or the empty sequence if none is non-empty. -/
def firstNonEmpty : List (List EncTree) → List EncTree
  | [] => []
  | r :: rest => if r.isEmpty then firstNonEmpty rest else r

/-- The footer segment descriptor decoded from the postscript flatbuffer:
`offset` is the decoded u64 field (value `< 2^64`), `length` the decoded u32 field
(value `< 2^32`). -/
structure SegmentSpec where
  offset : Nat
  length : Nat

/-- The distinct failure conditions of `read_footer_encodings` (each `anyhow::bail!`
site, plus `readFailed` for an I/O error propagated by `?` from `read_exact`). -/
inductive DecodeError where
  | tooSmall
  | badMagic
  | emptyPostscript
  | postscriptOverflow
  | readFailed
  | emptyPostscriptRead
  | missingFooterSegment
  | emptyFooter
  | footerOverflow
  | emptyFooterRead
deriving DecidableEq, Repr

/-- A `seek(Start(off))` followed by `read_exact` of `n` bytes: yields exactly the
`n` bytes starting at `off` when they exist, and fails (an `io::Error` propagated
by `?` in the source) when the file is too short. -/
def readExact (file : List Nat) (off n : Nat) : Option (List Nat) :=
  if off + n ≤ file.length then some ((file.drop off).take n) else none

/-- The last 8 bytes of the file (the trailer). -/
def eofOf (file : List Nat) : List Nat := (file.drop (file.length - 8)).take 8

/-- Models `u16::from_le_bytes([eof[2], eof[3]])`: the postscript length from trailer
bytes 2..4, little-endian. -/
def postscriptSizeOf (file : List Nat) : Nat :=
  (eofOf file).getD 2 0 + 256 * (eofOf file).getD 3 0

/-- The ASCII bytes of the magic `"VTXF"`. -/
def VTXFmagic : List Nat := [86, 84, 88, 70]

/-- Function `read_footer_encodings` from `src/main.rs`, over the file's bytes. The two
flatbuffer decodes are external library code and enter as parameters:
`parsePostscript` models `root_unchecked::<Postscript>` followed by `.footer()`
(`none` = the postscript carries no footer segment), and `parseFooter` models
`root_unchecked::<Footer>` followed by `array_specs()`/`layout_specs()`, giving the
two raw id sequences (an absent vector is the empty sequence). The footer bounds
check `footer_offset + footer_length as u64 > file_size` is u64 arithmetic, so the
sum is taken mod `2^64` as in release-mode Rust. The postscript check
`postscript_size + 8` cannot overflow (`postscript_size < 2^16`). -/
def read_footer_encodings (file : List Nat)
    (parsePostscript : List Nat → Option SegmentSpec)
    (parseFooter : List Nat → List String × List String) :
    Except DecodeError (List String × List String) :=
  let file_size := file.length
  if file_size < 8 then .error .tooSmall
  else
    match readExact file (file_size - 8) 8 with
    | none => .error .readFailed
    | some eof =>
      if eof.drop 4 ≠ VTXFmagic then .error .badMagic
      else
        let postscript_size := eof.getD 2 0 + 256 * eof.getD 3 0
        if postscript_size = 0 then .error .emptyPostscript
        else if postscript_size + 8 > file_size then .error .postscriptOverflow
        else
          match readExact file (file_size - 8 - postscript_size) postscript_size with
          | none => .error .readFailed
          | some postscript_bytes =>
            if postscript_bytes.isEmpty then .error .emptyPostscriptRead
            else
              match parsePostscript postscript_bytes with
              | none => .error .missingFooterSegment
              | some footer_segment =>
                let footer_offset := footer_segment.offset
                let footer_length := footer_segment.length
                if footer_length = 0 then .error .emptyFooter
                else if (footer_offset + footer_length) % 2 ^ 64 > file_size then
                  .error .footerOverflow
                else
                  match readExact file footer_offset footer_length with
                  | none => .error .readFailed
                  | some footer_bytes =>
                    if footer_bytes.isEmpty then .error .emptyFooterRead
                    else
                      let specs := parseFooter footer_bytes
                      .ok (collect_encoding_ids specs.1, collect_encoding_ids specs.2)

/-- Helper for relating `collect_encoding_ids` to `firstSeenDedup`: the collection
loop continued from an already-collected accumulator `acc`. -/
def stepD (acc : List String) : List String → List String
  | [] => []
  | i :: rest =>
    if i = "" ∨ i ∈ acc then stepD acc rest else i :: stepD (acc ++ [i]) rest

/-- Two identically shaped struct nodes placed under two distinct non-struct
wrapper siblings: the shape on which the document-order collapse claim fails. -/
def cexStructA : EncTree :=
  .node "vortex.struct" 3 none none
    [.node "vortex.constant" 1 none none [], .node "vortex.constant" 2 none none []]

def cexStructB : EncTree :=
  .node "vortex.struct" 3 none none
    [.node "vortex.constant" 1 none none [], .node "vortex.constant" 2 none none []]

def cexRoot : EncTree :=
  .node "vortex.chunked" 6 none none
    [.node "vortex.stats" 3 none none [cexStructA],
     .node "vortex.stats" 3 none none [cexStructB]]

/-- Three identically shaped sibling struct nodes under one parent: the spec's
collapse-repeats example. -/
def sibRoot : EncTree :=
  .node "vortex.chunked" 9 none none [cexStructA, cexStructB,
    .node "vortex.struct" 3 none none
      [.node "vortex.constant" 1 none none [], .node "vortex.constant" 2 none none []]]

/-- The spec's first-struct-search example: struct `A` with children `x`, `y`,
where a second struct `B` (children `p`, `q`) is nested below `A` inside `y`. -/
def exP : EncTree := .node "vortex.constant" 1 none none []

def exQ : EncTree := .node "vortex.constant" 1 none none []

def exB : EncTree := .node "vortex.struct" 2 none none [exP, exQ]

def exX : EncTree := .node "vortex.zstd" 1 none none []

def exY : EncTree := .node "vortex.dict" 2 none none [exB]

def exA : EncTree := .node "vortex.struct" 3 none none [exX, exY]

/-- A struct node with 3 children while only 2 field names are supplied: the
struct-alignment-mismatch example. -/
def mismatchRoot : EncTree :=
  .node "vortex.struct" 6 none none
    [.node "vortex.constant" 1 none none [],
     .node "vortex.constant" 2 none none [],
     .node "vortex.constant" 3 none none []]

/-- A 12-byte file with a valid trailer (`postscript_length = 4`, magic `VTXF`)
whose 4 postscript bytes precede the trailer. -/
def fileC8 : List Nat := [9, 9, 9, 9, 0, 0, 4, 0, 86, 84, 88, 70]

/-- A footer segment descriptor whose u64 `offset` is `2^64 - 1`: adding its
length overflows 64-bit arithmetic. -/
def segC8 : SegmentSpec := ⟨2 ^ 64 - 1, 2⟩

mutual
theorem contains_mem : (t : EncTree) → (target : String) →
    (contains_encoding t target = true ↔ ∃ s ∈ allNodes t, s.encoding_id = target)
  | .node i n d r cs, target => by
    rw [show contains_encoding (.node i n d r cs) target
          = ((i == target) || containsAny cs target) from rfl,
        show allNodes (.node i n d r cs) = .node i n d r cs :: allNodesList cs from rfl]
    simp only [Bool.or_eq_true, beq_iff_eq, List.mem_cons, containsAny_mem cs target]
    constructor
    · rintro (h | ⟨s, hs, h⟩)
      · exact ⟨.node i n d r cs, Or.inl rfl, h⟩
      · exact ⟨s, Or.inr hs, h⟩
    · rintro ⟨s, hs | hs, h⟩
      · subst hs; exact Or.inl h
      · exact Or.inr ⟨s, hs, h⟩

theorem containsAny_mem : (cs : List EncTree) → (target : String) →
    (containsAny cs target = true ↔ ∃ s ∈ allNodesList cs, s.encoding_id = target)
  | [], target => by simp [containsAny, allNodesList]
  | c :: rest, target => by
    rw [show containsAny (c :: rest) target
          = (contains_encoding c target || containsAny rest target) from rfl,
        show allNodesList (c :: rest) = allNodes c ++ allNodesList rest from rfl]
    simp only [Bool.or_eq_true, List.mem_append,
      contains_mem c target, containsAny_mem rest target]
    constructor
    · rintro (⟨s, hs, h⟩ | ⟨s, hs, h⟩)
      · exact ⟨s, Or.inl hs, h⟩
      · exact ⟨s, Or.inr hs, h⟩
    · rintro ⟨s, hs | hs, h⟩
      · exact Or.inl ⟨s, hs, h⟩
      · exact Or.inr ⟨s, hs, h⟩
end

theorem containsAny_elem_false : (cs : List EncTree) → (target : String) →
    containsAny cs target = false → ∀ c ∈ cs, contains_encoding c target = false
  | [], _, _, _, hc => by cases hc
  | c0 :: rest, target, h, c, hc => by
    rw [show containsAny (c0 :: rest) target
          = (contains_encoding c0 target || containsAny rest target) from rfl,
        Bool.or_eq_false_iff] at h
    cases hc with
    | head => exact h.1
    | tail _ hc' => exact containsAny_elem_false rest target h.2 c hc'

mutual
theorem extract_contains_false : (t : EncTree) → (target : String) →
    contains_encoding t target = false →
    ∀ c ∈ extract_column_encodings_from_tree t, contains_encoding c target = false
  | .node i n d r cs, target, h, c, hc => by
    rw [show contains_encoding (.node i n d r cs) target
          = ((i == target) || containsAny cs target) from rfl,
        Bool.or_eq_false_iff] at h
    rw [show extract_column_encodings_from_tree (.node i n d r cs)
          = (if i = "vortex.struct" then cs else extractFromChildren cs) from rfl] at hc
    by_cases hs : i = "vortex.struct"
    · rw [if_pos hs] at hc
      exact containsAny_elem_false cs target h.2 c hc
    · rw [if_neg hs] at hc
      exact extractFrom_contains_false cs target h.2 c hc

theorem extractFrom_contains_false : (cs : List EncTree) → (target : String) →
    containsAny cs target = false →
    ∀ c ∈ extractFromChildren cs, contains_encoding c target = false
  | [], _, _, c, hc => by
    rw [show extractFromChildren [] = ([] : List EncTree) from rfl] at hc
    cases hc
  | c0 :: rest, target, h, c, hc => by
    rw [show containsAny (c0 :: rest) target
          = (contains_encoding c0 target || containsAny rest target) from rfl,
        Bool.or_eq_false_iff] at h
    rw [show extractFromChildren (c0 :: rest)
          = (if (extract_column_encodings_from_tree c0).isEmpty
              then extractFromChildren rest else extract_column_encodings_from_tree c0)
          from rfl] at hc
    by_cases he : (extract_column_encodings_from_tree c0).isEmpty
    · rw [if_pos he] at hc
      exact extractFrom_contains_false rest target h.2 c hc
    · rw [if_neg he] at hc
      exact extract_contains_false c0 target h.1 c hc
end

theorem foldl_push_no_match (target : String) (l : List (String × EncTree))
    (acc : List String) (h : ∀ p ∈ l, contains_encoding p.2 target = false) :
    l.foldl
      (fun result p =>
        if contains_encoding p.2 target then result ++ [p.1] else result) acc = acc := by
  induction l generalizing acc with
  | nil => rfl
  | cons p rest ih =>
    rw [List.foldl_cons]
    have hp : contains_encoding p.2 target = false := h p (List.mem_cons_self p rest)
    rw [if_neg (by simp [hp])]
    exact ih acc (fun q hq => h q (List.mem_cons_of_mem p hq))

/-- C10: `contains_encoding(root, target_id)` is a total boolean function returning
true exactly when the root itself or some descendant at any depth carries an
encoding id equal to the target id. -/
theorem contains_encoding_iff_some_node (t : EncTree) (target : String) :
    contains_encoding t target = true ↔ ∃ s ∈ allNodes t, s.encoding_id = target :=
  contains_mem t target

/-- C1: whenever any node of the tree (the root or any descendant) carries the
target encoding id, `find_columns_with_encoding` returns the whole column-name
list, not only the names nearest the match. -/
theorem find_columns_flags_all_when_present (t : EncTree) (target : String)
    (column_names : List String) (h : ∃ s ∈ allNodes t, s.encoding_id = target) :
    find_columns_with_encoding t target column_names = column_names := by
  have hc : contains_encoding t target = true := (contains_mem t target).mpr h
  unfold find_columns_with_encoding
  rw [if_pos (by simp [hc])]

theorem find_columns_flags_all_when_present_witness :
    (∃ s ∈ allNodes (.node "vortex.dict" 3 none none
        [.node "vortex.zstd" 2 none none []]), s.encoding_id = "vortex.zstd") ∧
    find_columns_with_encoding
      (.node "vortex.dict" 3 none none [.node "vortex.zstd" 2 none none []])
      "vortex.zstd" ["a", "b"] = ["a", "b"] :=
  have h : ∃ s ∈ allNodes (.node "vortex.dict" 3 none none
      [.node "vortex.zstd" 2 none none []]), s.encoding_id = "vortex.zstd" :=
    ⟨.node "vortex.zstd" 2 none none [], by simp [allNodes, allNodesList], rfl⟩
  ⟨h, find_columns_flags_all_when_present _ _ _ h⟩

/-- C2: `find_columns_with_encoding` returns either the full column-name list or
the empty list, never a proper non-empty subset: its per-column branch runs only
when the whole-tree containment test is false, and then no extracted child subtree
contains the target either. -/
theorem find_columns_all_or_nothing (t : EncTree) (target : String)
    (column_names : List String) :
    find_columns_with_encoding t target column_names = column_names ∨
      find_columns_with_encoding t target column_names = [] := by
  unfold find_columns_with_encoding
  by_cases hc : contains_encoding t target = true
  · rw [if_pos (by simp [hc])]
    exact Or.inl rfl
  · have hc' : contains_encoding t target = false := by
      simpa using hc
    rw [if_neg (by simp [hc'])]
    by_cases he : (extract_column_encodings_from_tree t).isEmpty
    · rw [if_pos he]
      exact Or.inr rfl
    · rw [if_neg he]
      refine Or.inr (foldl_push_no_match target _ [] ?_)
      intro p hp
      exact extract_contains_false t target hc' p.2 (List.of_mem_zip hp).2

theorem extractFromChildren_eq_firstNonEmpty : (cs : List EncTree) →
    extractFromChildren cs = firstNonEmpty (cs.map extract_column_encodings_from_tree)
  | [] => rfl
  | c :: rest => by
    rw [show extractFromChildren (c :: rest)
          = (if (extract_column_encodings_from_tree c).isEmpty
              then extractFromChildren rest else extract_column_encodings_from_tree c)
          from rfl,
        List.map_cons,
        show firstNonEmpty (extract_column_encodings_from_tree c
              :: rest.map extract_column_encodings_from_tree)
          = (if (extract_column_encodings_from_tree c).isEmpty
              then firstNonEmpty (rest.map extract_column_encodings_from_tree)
              else extract_column_encodings_from_tree c) from rfl,
        extractFromChildren_eq_firstNonEmpty rest]

/-- C5: the first-struct search returns the children of a struct root immediately
without recursing; otherwise it returns the first child subtree's non-empty
recursive result, or the empty sequence when none is non-empty. On the spec's
example (`A` a struct with children `x`, `y`, with a second struct `B` nested
inside `y`) it returns A's children, never B's. -/
theorem extract_first_struct_characterization :
    (∀ (i : String) (n : Nat) (d : Option (Nat × Nat)) (r : Option Nat)
        (cs : List EncTree),
      extract_column_encodings_from_tree (.node i n d r cs) =
        if i = "vortex.struct" then cs
        else firstNonEmpty (cs.map extract_column_encodings_from_tree)) ∧
    extract_column_encodings_from_tree exA = [exX, exY] ∧
    get_array_children exB = [exP, exQ] := by
  refine ⟨fun i n d r cs => ?_, rfl, rfl⟩
  rw [show extract_column_encodings_from_tree (.node i n d r cs)
        = (if i = "vortex.struct" then cs else extractFromChildren cs) from rfl,
      extractFromChildren_eq_firstNonEmpty cs]

/-- C6: a `vortex.struct` node whose child count differs from the field-name count
is never name-labeled: the renderer prints only the node's header line and recurses
into its children through the unnamed sibling loop. On the spec's example (3
children, 2 names) the output is the four plain header lines with no
`Column [..]` label. -/
theorem struct_mismatch_never_labeled :
    (∀ (n : Nat) (d : Option (Nat × Nat)) (r : Option Nat) (cs : List EncTree)
        (depth : Nat) (column_names : List String) (flag : Bool),
      cs.length ≠ column_names.length →
      analyze_encoding_tree_with_names (.node "vortex.struct" n d r cs) depth
          column_names flag =
        encoding_line (.node "vortex.struct" n d r cs) depth
          :: analyzeNamedChildren cs (depth + 1) column_names (!flag)) ∧
    analyze_encoding_tree_with_names mismatchRoot 0 ["c1", "c2"] true =
      ["└─ vortex.struct (6 bytes)",
       "  └─ vortex.constant (1 bytes) [Constant]",
       "  └─ vortex.constant (2 bytes) [Constant]",
       "  └─ vortex.constant (3 bytes) [Constant]"] := by
  refine ⟨fun n d r cs depth column_names flag h => ?_, rfl⟩
  rw [show analyze_encoding_tree_with_names (.node "vortex.struct" n d r cs) depth
        column_names flag
      = (if "vortex.struct" = "vortex.struct" ∧ cs.length = column_names.length then
          if flag then
            encoding_line (.node "vortex.struct" n d r cs) depth
              :: column_lines (column_names.zip cs) 0 column_names.length depth
          else
            [encoding_line (.node "vortex.struct" n d r cs) depth,
             indentOf depth ++ "  [Same structure: " ++ toString cs.length ++ " columns]"]
        else
          encoding_line (.node "vortex.struct" n d r cs) depth
            :: analyzeNamedChildren cs (depth + 1) column_names (!flag)) from rfl,
      if_neg (by exact fun hand => h hand.2)]

theorem struct_mismatch_never_labeled_witness :
    analyze_encoding_tree_with_names mismatchRoot 0 ["c1", "c2"] true =
      encoding_line mismatchRoot 0
        :: analyzeNamedChildren (get_array_children mismatchRoot) 1 ["c1", "c2"] false :=
  struct_mismatch_never_labeled.1 6 none none (get_array_children mismatchRoot) 0
    ["c1", "c2"] true (by decide)

/-- C4 counterexample: with `collapse_repeats` enabled, a tree holding two
identically shaped struct nodes under two distinct non-struct siblings renders
BOTH structs in full: the `Column [c1]:` label line of depth-2 structs occurs
twice and no `[Same structure: 2 columns]` summary line is emitted, so the second
struct in document order is not collapsed as the claim states. -/
theorem collapse_not_global_counterexample :
    (analyze_encoding_tree_with_names cexRoot 0 ["c1", "c2"] true).count
        "      ├─ Column [c1]:" = 2 ∧
    (analyze_encoding_tree_with_names cexRoot 0 ["c1", "c2"] true).count
        "      [Same structure: 2 columns]" = 0 := by
  exact ⟨rfl, rfl⟩

mutual
theorem aetwn_false_collapsed : (t : EncTree) → (depth : Nat) →
    (column_names : List String) →
    analyze_encoding_tree_with_names t depth column_names false =
      collapsed_render t depth column_names
  | .node i n d r cs, depth, column_names => by
    rw [show analyze_encoding_tree_with_names (.node i n d r cs) depth column_names false
        = (if i = "vortex.struct" ∧ cs.length = column_names.length then
            if (false : Bool) then
              encoding_line (.node i n d r cs) depth
                :: column_lines (column_names.zip cs) 0 column_names.length depth
            else
              [encoding_line (.node i n d r cs) depth,
               indentOf depth ++ "  [Same structure: " ++ toString cs.length
                 ++ " columns]"]
          else
            encoding_line (.node i n d r cs) depth
              :: analyzeNamedChildren cs (depth + 1) column_names (!false)) from rfl,
        show collapsed_render (.node i n d r cs) depth column_names
        = (if i = "vortex.struct" ∧ cs.length = column_names.length then
            [encoding_line (.node i n d r cs) depth,
             indentOf depth ++ "  [Same structure: " ++ toString cs.length
               ++ " columns]"]
          else
            encoding_line (.node i n d r cs) depth
              :: collapsedChildren cs (depth + 1) column_names) from rfl]
    by_cases h : i = "vortex.struct" ∧ cs.length = column_names.length
    · rw [if_pos h, if_pos h, if_neg (by simp)]
    · rw [if_neg h, if_neg h, Bool.not_false,
        namedChildren_true_collapsed cs (depth + 1) column_names]

theorem namedChildren_true_collapsed : (cs : List EncTree) → (depth : Nat) →
    (column_names : List String) →
    analyzeNamedChildren cs depth column_names true =
      collapsedChildren cs depth column_names
  | [], _, _ => rfl
  | c :: rest, depth, column_names => by
    rw [show analyzeNamedChildren (c :: rest) depth column_names true
        = analyze_encoding_tree_with_names c depth column_names (!true)
            ++ analyzeNamedChildren rest depth column_names
                (true || ((c.encoding_id == "vortex.struct") && !true)) from rfl,
        show collapsedChildren (c :: rest) depth column_names
        = collapsed_render c depth column_names
            ++ collapsedChildren rest depth column_names from rfl,
        Bool.not_true, Bool.true_or,
        aetwn_false_collapsed c depth column_names,
        namedChildren_true_collapsed rest depth column_names]
end

/-- C4 amended: the collapse flag is threaded per sibling list, not globally: once
the details flag is off it stays off for the whole subtree, so every
`vortex.struct` node there with matching child count renders as its header line
plus one `[Same structure: N columns]` summary line (`collapsed_render`); and among
three identically shaped sibling structs the first expands in full with labeled
`Column [..]:` lines while the second and third each collapse to that summary. Two
structs under distinct non-struct siblings may however both expand. -/
theorem collapse_repeats_amended :
    (∀ (t : EncTree) (depth : Nat) (column_names : List String),
      analyze_encoding_tree_with_names t depth column_names false =
        collapsed_render t depth column_names) ∧
    analyze_encoding_tree_with_names sibRoot 0 ["c1", "c2"] true =
      ["└─ vortex.chunked (9 bytes)",
       "  └─ vortex.struct (3 bytes)",
       "    ├─ Column [c1]:",
       "      └─ vortex.constant (1 bytes) [Constant]",
       "    └─ Column [c2]:",
       "      └─ vortex.constant (2 bytes) [Constant]",
       "  └─ vortex.struct (3 bytes)",
       "    [Same structure: 2 columns]",
       "  └─ vortex.struct (3 bytes)",
       "    [Same structure: 2 columns]"] :=
  ⟨aetwn_false_collapsed, rfl⟩

theorem collect_foldl_stepD : (ids : List String) → (acc : List String) →
    ids.foldl
      (fun encodings encoding_id =>
        if encoding_id ≠ "" ∧ encoding_id ∉ encodings then encodings ++ [encoding_id]
        else encodings) acc = acc ++ stepD acc ids
  | [], acc => by simp [stepD]
  | i :: rest, acc => by
    rw [List.foldl_cons, show stepD acc (i :: rest)
        = (if i = "" ∨ i ∈ acc then stepD acc rest else i :: stepD (acc ++ [i]) rest)
        from rfl]
    by_cases h : i = "" ∨ i ∈ acc
    · rw [if_pos h, if_neg (by tauto), collect_foldl_stepD rest acc]
    · push_neg at h
      rw [if_pos h, if_neg (by tauto), collect_foldl_stepD rest (acc ++ [i]),
        List.append_assoc]
      rfl

theorem stepD_eq_filter : (ids : List String) → (acc : List String) →
    stepD acc ids = (firstSeenDedup ids).filter (fun j => decide (j ∉ acc))
  | [], acc => rfl
  | i :: rest, acc => by
    rw [show stepD acc (i :: rest)
        = (if i = "" ∨ i ∈ acc then stepD acc rest else i :: stepD (acc ++ [i]) rest)
        from rfl,
      show firstSeenDedup (i :: rest)
        = (if i = "" then firstSeenDedup rest
           else i :: (firstSeenDedup rest).filter (fun j => j != i)) from rfl]
    by_cases h0 : i = ""
    · rw [if_pos (Or.inl h0), if_pos h0, stepD_eq_filter rest acc]
    · rw [if_neg h0]
      by_cases h1 : i ∈ acc
      · rw [if_pos (Or.inr h1), stepD_eq_filter rest acc,
          List.filter_cons_of_neg (by simp [h1]), List.filter_filter]
        refine List.filter_congr ?_
        intro j _
        by_cases hj : j = i
        · subst hj; simp [h1]
        · simp [hj]
      · rw [if_neg (by rintro (h | h); exact h0 h; exact h1 h),
          stepD_eq_filter rest (acc ++ [i]),
          List.filter_cons_of_pos (by simp [h1]), List.filter_filter]
        refine congrArg (i :: ·) (List.filter_congr ?_)
        intro j _
        by_cases hj : j = i
        · subst hj; simp
        · simp [hj, List.mem_append]

/-- C3: the decoded encoding list is exactly the distinct non-empty ids in
first-seen order — the collection loop equals the spec's ordered first-seen dedup,
and on ids `["a","b","a","c","b"]` it yields exactly `["a","b","c"]`. The same
loop is used for the array specs and the layout specs. -/
theorem collect_ids_first_seen_dedup :
    (∀ ids : List String, collect_encoding_ids ids = firstSeenDedup ids) ∧
    collect_encoding_ids ["a", "b", "a", "c", "b"] = ["a", "b", "c"] := by
  refine ⟨fun ids => ?_, rfl⟩
  rw [show collect_encoding_ids ids
      = ids.foldl
          (fun encodings encoding_id =>
            if encoding_id ≠ "" ∧ encoding_id ∉ encodings then
              encodings ++ [encoding_id]
            else encodings) [] from rfl,
    collect_foldl_stepD ids [], stepD_eq_filter ids [], List.nil_append]
  refine (List.filter_congr ?_).trans (List.filter_true _)
  intro j _
  simp

theorem readExact_eof (file : List Nat) (h : 8 ≤ file.length) :
    readExact file (file.length - 8) 8 = some (eofOf file) := by
  unfold readExact eofOf
  rw [if_pos (by omega)]

theorem readExact_length {file : List Nat} {off n : Nat} {b : List Nat}
    (h : readExact file off n = some b) : b.length = n := by
  unfold readExact at h
  by_cases hle : off + n ≤ file.length
  · rw [if_pos hle] at h
    cases h
    simp only [List.length_take, List.length_drop]
    omega
  · rw [if_neg hle] at h
    cases h

/-- C7: the four leading validations of `read_footer_encodings` fire in order:
shorter than 8 bytes fails `TooSmall`; at least 8 bytes with last 4 bytes other
than `VTXF` fails `BadMagic` before the postscript length is examined; magic right
but little-endian postscript length from trailer bytes 2..4 zero fails
`EmptyPostscript`; postscript length nonzero but `postscript_length + 8` exceeding
the file size fails `PostscriptOverflow` before any postscript byte is read. -/
theorem locate_validation_order (file : List Nat)
    (parsePostscript : List Nat → Option SegmentSpec)
    (parseFooter : List Nat → List String × List String) :
    (file.length < 8 →
      read_footer_encodings file parsePostscript parseFooter = .error .tooSmall) ∧
    (8 ≤ file.length → (eofOf file).drop 4 ≠ VTXFmagic →
      read_footer_encodings file parsePostscript parseFooter = .error .badMagic) ∧
    (8 ≤ file.length → (eofOf file).drop 4 = VTXFmagic → postscriptSizeOf file = 0 →
      read_footer_encodings file parsePostscript parseFooter
        = .error .emptyPostscript) ∧
    (8 ≤ file.length → (eofOf file).drop 4 = VTXFmagic → postscriptSizeOf file ≠ 0 →
      postscriptSizeOf file + 8 > file.length →
      read_footer_encodings file parsePostscript parseFooter
        = .error .postscriptOverflow) := by
  unfold postscriptSizeOf
  refine ⟨?_, ?_, ?_, ?_⟩
  · intro h
    unfold read_footer_encodings
    rw [if_pos h]
  · intro h hm
    simp only [read_footer_encodings, readExact_eof file h]
    rw [if_neg (by omega), if_pos hm]
  · intro h hm h0
    simp only [read_footer_encodings, readExact_eof file h]
    rw [if_neg (by omega), if_neg (by simp [hm]), if_pos h0]
  · intro h hm h0 hov
    simp only [read_footer_encodings, readExact_eof file h]
    rw [if_neg (by omega), if_neg (by simp [hm]), if_neg h0, if_pos hov]

theorem locate_validation_order_witness :
    read_footer_encodings [1, 2, 3] (fun _ => none) (fun _ => ([], []))
      = .error .tooSmall ∧
    read_footer_encodings [0, 0, 0, 0, 0, 0, 0, 0] (fun _ => none) (fun _ => ([], []))
      = .error .badMagic ∧
    read_footer_encodings [0, 0, 0, 0, 86, 84, 88, 70] (fun _ => none)
      (fun _ => ([], [])) = .error .emptyPostscript ∧
    read_footer_encodings [0, 0, 9, 0, 86, 84, 88, 70] (fun _ => none)
      (fun _ => ([], [])) = .error .postscriptOverflow :=
  ⟨(locate_validation_order [1, 2, 3] _ _).1 (by decide),
   (locate_validation_order [0, 0, 0, 0, 0, 0, 0, 0] _ _).2.1 (by decide) (by decide),
   (locate_validation_order [0, 0, 0, 0, 86, 84, 88, 70] _ _).2.2.1 (by decide)
     (by decide) (by decide),
   (locate_validation_order [0, 0, 9, 0, 86, 84, 88, 70] _ _).2.2.2 (by decide)
     (by decide) (by decide) (by decide)⟩

theorem readExact_nonempty {file : List Nat} {off n : Nat} {b : List Nat}
    (h : readExact file off n = some b) (hn : ¬ n = 0) : b.isEmpty = false := by
  have hl := readExact_length h
  cases b with
  | nil => exact absurd (by simpa using hl.symm) hn
  | cons x xs => rfl

theorem read_footer_no_defensive_error (file : List Nat)
    (parsePostscript : List Nat → Option SegmentSpec)
    (parseFooter : List Nat → List String × List String) (err : DecodeError)
    (h1 : err = DecodeError.emptyPostscriptRead ∨ err = DecodeError.emptyFooterRead) :
    read_footer_encodings file parsePostscript parseFooter ≠ .error err := by
  simp only [read_footer_encodings]
  split
  · rcases h1 with rfl | rfl <;> simp
  split
  · rcases h1 with rfl | rfl <;> simp
  next eof heof =>
    split
    · rcases h1 with rfl | rfl <;> simp
    split
    · rcases h1 with rfl | rfl <;> simp
    next hps0 =>
      split
      · rcases h1 with rfl | rfl <;> simp
      split
      · rcases h1 with rfl | rfl <;> simp
      next psBytes hpsread =>
        rw [if_neg (by simp [readExact_nonempty hpsread hps0])]
        split
        · rcases h1 with rfl | rfl <;> simp
        next seg hseg =>
          split
          · rcases h1 with rfl | rfl <;> simp
          next hlen0 =>
            split
            · rcases h1 with rfl | rfl <;> simp
            split
            · rcases h1 with rfl | rfl <;> simp
            next fBytes hfread =>
              rw [if_neg (by simp [readExact_nonempty hfread hlen0])]
              rcases h1 with rfl | rfl <;> simp

/-- C9: the defensive `EmptyPostscriptRead` and `EmptyFooterRead` branches are
unreachable: on every input the earlier checks guarantee that a successful read of
the requested nonzero number of bytes yields a non-empty buffer, so
`read_footer_encodings` never reports either error. -/
theorem defensive_empty_reads_unreachable (file : List Nat)
    (parsePostscript : List Nat → Option SegmentSpec)
    (parseFooter : List Nat → List String × List String) :
    read_footer_encodings file parsePostscript parseFooter
        ≠ .error .emptyPostscriptRead ∧
    read_footer_encodings file parsePostscript parseFooter
        ≠ .error .emptyFooterRead :=
  ⟨read_footer_no_defensive_error file parsePostscript parseFooter _ (Or.inl rfl),
   read_footer_no_defensive_error file parsePostscript parseFooter _ (Or.inr rfl)⟩

theorem defensive_empty_reads_unreachable_witness :
    read_footer_encodings [9, 9, 9, 9, 0, 0, 4, 0, 86, 84, 88, 70]
        (fun _ => some ⟨0, 4⟩) (fun _ => (["vortex.zstd"], []))
        ≠ .error .emptyPostscriptRead ∧
    read_footer_encodings [9, 9, 9, 9, 0, 0, 4, 0, 86, 84, 88, 70]
        (fun _ => some ⟨0, 4⟩) (fun _ => (["vortex.zstd"], []))
        ≠ .error .emptyFooterRead :=
  defensive_empty_reads_unreachable [9, 9, 9, 9, 0, 0, 4, 0, 86, 84, 88, 70]
    (fun _ => some ⟨0, 4⟩) (fun _ => (["vortex.zstd"], []))

/-- C8 is wrong about the code: the footer bounds check adds a 64-bit offset and a
32-bit length in u64 arithmetic, which overflows for offsets near `2^64`. On a
12-byte file whose postscript decodes to the segment `(offset = 2^64 - 1,
length = 2)` the true sum exceeds `2^64` (debug builds panic here), the wrapped
release-mode sum is `1 ≤ 12` so `FooterOverflow` is NOT raised even though the
segment lies beyond the file, and the subsequent bounded footer read fails
instead. -/
theorem footer_bounds_check_overflows :
    2 ^ 64 ≤ segC8.offset + segC8.length ∧
    (segC8.offset + segC8.length) % 2 ^ 64 ≤ fileC8.length ∧
    fileC8.length < segC8.offset + segC8.length ∧
    read_footer_encodings fileC8 (fun _ => some segC8) (fun _ => ([], []))
      = .error .readFailed ∧
    read_footer_encodings fileC8 (fun _ => some segC8) (fun _ => ([], []))
      ≠ .error .footerOverflow := by
  have heq : read_footer_encodings fileC8 (fun _ => some segC8) (fun _ => ([], []))
      = .error .readFailed := rfl
  refine ⟨by decide, by decide, by decide, heq, by rw [heq]; simp⟩
